import Mathlib

/-!
Verification of the jsonloader wrapping/validation engine
(src/jsonloader/jsonloader.py) against its design specification.

The development shallowly embeds the runtime values the engine manipulates
and translates `JSONWrapper.__new__`, `__eq__`, `__iter__` / `dict(...)` and
`__getitem__` into Lean functions.  Python values are modelled by the mutual
inductive family `PVal` / `PFields` / `PList` (a dict is an insertion-ordered
association list, as in CPython).  A class produced by the schema combinator
is modelled by its two ingredients: an optional annotation table (`Schema`,
ordered field/type/default triples, mirroring `cls.__annotations__` plus the
class attributes holding defaults) and the three boolean flags closed over by
`wrapper_factory` (`annotations`, `annotations_strict`, `annotations_type`).

Modelling notes, fixed once here:
* `typeguard.check_type` is an external library; it is modelled by the
  structural check `checkTypeB` (isinstance-style nominal checks,
  element-wise for parameterized list types, `bool` accepted for `int` as in
  CPython).  The call sites pass a diagnostic label first, as in the
  typeguard 2.x API the code was written against.
* The base class `JSONWrapper` carries no `__annotations__` attribute
  (python_requires is >= 3.8.10, where an un-annotated class body yields no
  such attribute anywhere in the MRO), so the generic recursion
  `JSONWrapper(v, ...)` is modelled as construction with schema `none`.
* Error values: Python raises `KeyError` both for missing and unexpected
  fields and `TypeError` both for type mismatches and malformed schemas;
  `Err` keeps the four spec kinds apart and `Err.isKeyError` /
  `Err.isTypeError` recover the Python exception class.
* Method attributes of wrapper objects (e.g. bound `__iter__`) are outside
  the value model; class-level attribute lookup in `__getitem__` is modelled
  for the schema's default attributes, which is what the engine itself
  creates and reads (line 165, `hasattr(cls, k)`).
-/

/- Python runtime values relevant to the engine.  `pdict` is a plain dict
(ordered association list), `pwrap` a constructed `JSONWrapper` instance
holding its `__dict__`, `plist` / `ptuple` / `pset` / `pgen` the other
iterable shapes the dispatch in `__new__` distinguishes, and the remaining
constructors are the JSON scalars. -/
mutual
inductive PVal where
  | pdict : PFields → PVal
  | pwrap : PFields → PVal
  | plist : PList → PVal
  | ptuple : PList → PVal
  | pset : PList → PVal
  | pgen : PList → PVal
  | pstr : String → PVal
  | pint : Int → PVal
  | pbool : Bool → PVal
  | pnone : PVal
deriving DecidableEq, Repr
inductive PFields where
  | fnil : PFields
  | fcons : String → PVal → PFields → PFields
deriving DecidableEq, Repr
inductive PList where
  | lnil : PList
  | lcons : PVal → PList → PList
deriving DecidableEq, Repr
end

/-- Key list of a dict / `__dict__`, in insertion order. -/
def PFields.keys : PFields → List String
  | .fnil => []
  | .fcons k _ rest => k :: rest.keys

/-- First-match lookup, i.e. Python dict lookup (keys are unique in any
value produced by CPython). -/
def PFields.lookup : PFields → String → Option PVal
  | .fnil, _ => none
  | .fcons k v rest, k' => if k = k' then some v else rest.lookup k'

/-- Concatenation of field tables; models consecutive `setattr` runs over
disjoint keys. -/
def PFields.append : PFields → PFields → PFields
  | .fnil, g => g
  | .fcons k v rest, g => .fcons k v (rest.append g)

/-- Number of fields (`len(self.__dict__)`). -/
def PFields.length : PFields → Nat
  | .fnil => 0
  | .fcons _ _ rest => 1 + rest.length

/-- Key set of a dict, as the `set(...)` the engine builds on line 162. -/
def keysFin (m : PFields) : Finset String := m.keys.toFinset

def PList.length : PList → Nat
  | .lnil => 0
  | .lcons _ rest => 1 + rest.length

/- Declared types.  `tBareList` is a bare sequence literal annotation such
as `[int]` (an object for which `isinstance(t, list)` holds, line 203);
`tListClass` is the plain `list` class (not a list instance); `tListOf` is a
parameterized `typing.List[...]`; `tWrapper` is a schema-bound wrapper
subclass carrying its own annotation table and its own bound flags
`(annotations, annotations_strict, annotations_type)`. -/
mutual
inductive PyType where
  | tStr : PyType
  | tInt : PyType
  | tBool : PyType
  | tListClass : PyType
  | tBareList : PyType
  | tListOf : PyType → PyType
  | tWrapper : Schema → Bool → Bool → Bool → PyType
deriving DecidableEq, Repr
inductive Schema where
  | snil : Schema
  | scons : String → PyType → Option PVal → Schema → Schema
deriving DecidableEq, Repr
end

/-- Declared field names, in declaration order (`cls.__annotations__`). -/
def Schema.keysList : Schema → List String
  | .snil => []
  | .scons k _ _ rest => k :: rest.keysList

/-- The set `keys_a` before defaults are discarded (line 161). -/
def Schema.keysFin (s : Schema) : Finset String := s.keysList.toFinset

/-- Names of declared fields that carry a default (class attributes,
detected by `hasattr(cls, k)` on line 165). -/
def Schema.defaultedList : Schema → List String
  | .snil => []
  | .scons k _ (some _) rest => k :: rest.defaultedList
  | .scons _ _ none rest => rest.defaultedList

def Schema.defaultedFin (s : Schema) : Finset String := s.defaultedList.toFinset

/-- Declared fields that must be present in the input: declared minus
defaulted, the final value of `keys_a` after the discards on line 174. -/
def Schema.requiredFin (s : Schema) : Finset String := s.keysFin \ s.defaultedFin

/-- `cls.__annotations__[k]` (first match; annotation tables of real classes
have unique keys). -/
def Schema.lookupType : Schema → String → Option PyType
  | .snil, _ => none
  | .scons k t _ rest, k' => if k = k' then some t else rest.lookupType k'

/-- `getattr(cls, k)` for a declared default attribute. -/
def Schema.lookupDefault : Schema → String → Option PVal
  | .snil, _ => none
  | .scons k _ d rest, k' => if k = k' then d else rest.lookupDefault k'

def PyType.isBareList : PyType → Bool
  | .tBareList => true
  | _ => false

def PyType.isWrapper : PyType → Bool
  | .tWrapper _ _ _ _ => true
  | _ => false

/-- True when no declared field's type is a schema-bound wrapper subclass,
so construction never recurses through a nested type's own `__new__`. -/
def Schema.noWrapperTypes : Schema → Bool
  | .snil => true
  | .scons _ t _ rest => !t.isWrapper && rest.noWrapperTypes

/-- Validation errors.  `missingField` / `unexpectedField` carry the set of
offending names interpolated into the `KeyError` message (lines 184, 190);
`typeMismatch` / `schemaDecl` carry the field name of the failing
`TypeError`; `missingAttr` is the `KeyError` of `__getitem__`. -/
inductive Err where
  | missingField : Finset String → Err
  | unexpectedField : Finset String → Err
  | typeMismatch : String → Err
  | schemaDecl : String → Err
  | missingAttr : String → Err
deriving DecidableEq

/-- Which errors surface as Python `KeyError`. -/
def Err.isKeyError : Err → Bool
  | .missingField _ => true
  | .unexpectedField _ => true
  | .missingAttr _ => true
  | .typeMismatch _ => false
  | .schemaDecl _ => false

/-- Which errors surface as Python `TypeError`. -/
def Err.isTypeError : Err → Bool
  | .missingField _ => false
  | .unexpectedField _ => false
  | .missingAttr _ => false
  | .typeMismatch _ => true
  | .schemaDecl _ => true

instance : DecidableEq (Except Err PVal) := fun a b =>
  match a, b with
  | .ok x, .ok y => decidable_of_iff (x = y) (by simp)
  | .error e, .error f => decidable_of_iff (e = f) (by simp)
  | .ok _, .error _ => isFalse (by simp)
  | .error _, .ok _ => isFalse (by simp)

instance : DecidableEq (Except Err Bool) := fun a b =>
  match a, b with
  | .ok x, .ok y => decidable_of_iff (x = y) (by simp)
  | .error e, .error f => decidable_of_iff (e = f) (by simp)
  | .ok _, .error _ => isFalse (by simp)
  | .error _, .ok _ => isFalse (by simp)

/- Structural type check, modelling `typeguard.check_type(value, t)`:
nominal isinstance checks on scalars (a `bool` is an `int` in Python),
element-wise checking of parameterized list types, isinstance-only checking
for the plain `list` class, and failure for everything else — in particular
a raw JSON value is never an instance of a wrapper subclass, and a bare list
literal is not a valid type for typeguard. -/
mutual
def checkTypeB : PyType → PVal → Bool
  | .tStr, .pstr _ => true
  | .tInt, .pint _ => true
  | .tInt, .pbool _ => true
  | .tBool, .pbool _ => true
  | .tListClass, .plist _ => true
  | .tListOf t, .plist xs => checkTypeL t xs
  | _, _ => false
def checkTypeL : PyType → PList → Bool
  | _, .lnil => true
  | t, .lcons x xs => checkTypeB t x && checkTypeL t xs
end

/-- True when every declared default value satisfies its declared type. -/
def Schema.wellTypedDefaults : Schema → Bool
  | .snil => true
  | .scons _ t (some d) rest => checkTypeB t d && rest.wellTypedDefaults
  | .scons _ _ none rest => rest.wellTypedDefaults

/-- Lines 164-172: under `annotations_type`, each declared default is
checked against its own annotation while the defaults are collected; the
first failing default aborts construction with the schema-authoring
`TypeError`. -/
def checkDefaults : Schema → Except Err Unit
  | .snil => .ok ()
  | .scons k t (some d) rest =>
    if checkTypeB t d then checkDefaults rest else .error (.schemaDecl k)
  | .scons _ _ none rest => checkDefaults rest

/-- Lines 213-217: the recorded defaults whose field is absent from the
input, in declaration order (`default_attributes` filtered by
`k not in json_loaded_object`). -/
def absentDefaults : Schema → PFields → PFields
  | .snil, _ => .fnil
  | .scons k _ (some d) rest, m =>
    if k ∈ keysFin m then absentDefaults rest m
    else .fcons k d (absentDefaults rest m)
  | .scons _ _ none rest, m => absentDefaults rest m

/-- Lines 195-208: under `annotations_type`, walk the input items in order;
a declared field whose annotation is a bare list literal aborts with the
schema-declaration `TypeError` (line 204), any other declared field must
type-check; undeclared keys are skipped. -/
def checkItems : Schema → PFields → Except Err Unit
  | _, .fnil => .ok ()
  | s, .fcons k v rest =>
    match s.lookupType k with
    | some t =>
      if t.isBareList then .error (.schemaDecl k)
      else if checkTypeB t v then checkItems s rest
      else .error (.typeMismatch k)
    | none => checkItems s rest

/-- Lines 161-193 minus the defaults pass: the required-field check
(`keys_a ⊆ keys_j`, else `KeyError` naming `keys_a - keys_j`) followed,
under `annotations_strict`, by the strict check (`keys_j ⊆ keys_a`, else
`KeyError` naming `keys_j - keys_a`).  Both key sets have the defaulted
fields discarded (lines 174-175). -/
def dictKeysChecks (s : Schema) (strict : Bool) (m : PFields) : Except Err Unit :=
  let keysA := s.keysFin \ s.defaultedFin
  let keysJ := keysFin m \ s.defaultedFin
  if keysA ⊆ keysJ then
    if strict then
      if keysJ ⊆ keysA then .ok ()
      else .error (.unexpectedField (keysJ \ keysA))
    else .ok ()
  else .error (.missingField (keysA \ keysJ))

/-- Lines 148-155: the resolved `annotations` variable — the disjunction of
the three flag arguments, forced back to `False` when the class carries no
`__annotations__` attribute. -/
def resolveAnn (s? : Option Schema) (ann strict typ : Bool) : Bool :=
  if s?.isSome then ann || typ || strict else false

/-- Lines 219-232: the nested-construction test for one input key — the key
must name a declared field (under active `annotations`) whose annotation is
a wrapper subclass (`issubclass(type_a, JSONWrapper)`; a non-class
annotation raises `TypeError` into the `except` and falls back to the
generic case).  Returns that class's annotation table and bound flags. -/
def nestedOf (s? : Option Schema) (annR : Bool) (k : String) :
    Option (Schema × Bool × Bool × Bool) :=
  match (if annR then s?.bind fun s => s.lookupType k else none) with
  | some (.tWrapper s' a' b' c') => some (s', a', b', c')
  | _ => none

/- The recursive wrap engine: `JSONWrapper.__new__` (lines 131-254) for a
class with annotation table `s?` and flag arguments `ann`, `strict`, `typ`
(`annotations`, `annotations_strict`, `annotations_type`).

Dispatch mirrors the source: a dict-like input runs the checking blocks and
materializes a wrapper object whose `__dict__` is the absent defaults
followed by the wrapped input pairs; a list-like input (exposes `__iter__`
and `clear`: lists and sets) becomes a plain list of generically wrapped
elements; anything else — tuples, generators, strings, scalars, wrapper
instances — is returned unchanged (line 254).

`annR` is the resolved `annotations` variable: the flag disjunction of line
148-150, forced to `False` when the class has no `__annotations__`
(line 153-155), i.e. when `s?` is `none`.  Children are built through the
base class (`JSONWrapper(...)`, schema `none`) with the same flags
(lines 238-242, 247-251); a declared field whose annotation is a wrapper
subclass is instead built by that nested class's own construction with its
own bound flags (lines 222-228). -/
mutual
def construct (s? : Option Schema) (ann strict typ : Bool) : PVal → Except Err PVal
  | .pdict m =>
    match s? with
    | some s =>
      let annR := ann || typ || strict
      (if annR then
        (if typ then checkDefaults s else .ok ()) >>= fun _ =>
          dictKeysChecks s strict m
       else .ok ()) >>= fun _ =>
      (if typ then checkItems s m else .ok ()) >>= fun _ =>
      (buildFields (some s) annR strict typ m).map fun flds =>
        .pwrap (PFields.append (if annR then absentDefaults s m else .fnil) flds)
    | none =>
      (buildFields none false strict typ m).map fun flds => .pwrap flds
  | .plist xs =>
    (wrapAll (resolveAnn s? ann strict typ) strict typ xs).map fun ws => .plist ws
  | .pset xs =>
    (wrapAll (resolveAnn s? ann strict typ) strict typ xs).map fun ws => .plist ws
  | v => .ok v
def buildFields (s? : Option Schema) (annR strict typ : Bool) : PFields → Except Err PFields
  | .fnil => .ok .fnil
  | .fcons k v rest =>
    match nestedOf s? annR k with
    | some (s', a', b', c') =>
      (construct (some s') a' b' c' v) >>= fun w =>
      (buildFields s? annR strict typ rest).map fun ws => .fcons k w ws
    | none =>
      (construct none annR strict typ v) >>= fun w =>
      (buildFields s? annR strict typ rest).map fun ws => .fcons k w ws
def wrapAll (annR strict typ : Bool) : PList → Except Err PList
  | .lnil => .ok .lnil
  | .lcons x xs =>
    (construct none annR strict typ x) >>= fun w =>
    (wrapAll annR strict typ xs).map fun ws => .lcons w ws
end

/- Reference form of the unchecked generic wrap `JSONWrapper(v)` (schema
`none`, so every check is disabled): dicts become wrapper objects
field-wise, lists and sets become plain lists element-wise, everything else
is returned unchanged.  `construct_none_ok` proves this is exactly what
`construct` computes with no schema. -/
mutual
def wrap0 : PVal → PVal
  | .pdict m => .pwrap (wrap0F m)
  | .plist xs => .plist (wrap0L xs)
  | .pset xs => .plist (wrap0L xs)
  | v => v
def wrap0F : PFields → PFields
  | .fnil => .fnil
  | .fcons k v rest => .fcons k (wrap0 v) (wrap0F rest)
def wrap0L : PList → PList
  | .lnil => .lnil
  | .lcons x xs => .lcons (wrap0 x) (wrap0L xs)
end

/-- Structural subset test used for Python set equality (set members are
hashable scalars in JSON-shaped data, where `==` coincides with structural
equality; the int/bool hash unification is elided). -/
def setMemB (x : PVal) : PList → Bool
  | .lnil => false
  | .lcons y ys => x == y || setMemB x ys

def setSubB : PList → PList → Bool
  | .lnil, _ => true
  | .lcons x xs, ys => setMemB x ys && setSubB xs ys

/- Python `==` on the modelled values.  Wrapper objects compare through
`JSONWrapper.__eq__` (lines 256-265): against a dict by comparing
`self.__dict__` with it, against anything with a `__dict__` by comparing the
two `__dict__`s, and against every other shape the final
`self.__dict__ == other` evaluates to `False` (dict `__eq__` returns
`NotImplemented`, it never raises).  Dict equality is size equality plus
key-wise equal values; genuine CPython dicts have unique keys, for which
the one-sided traversal is exact. -/
mutual
def pyEq : PVal → PVal → Bool
  | .pdict d, .pdict e => d.length == e.length && fieldsSub d e
  | .pdict d, .pwrap g => d.length == g.length && fieldsSub d g
  | .pwrap f, .pdict e => f.length == e.length && fieldsSub f e
  | .pwrap f, .pwrap g => f.length == g.length && fieldsSub f g
  | .plist xs, .plist ys => pyEqL xs ys
  | .ptuple xs, .ptuple ys => pyEqL xs ys
  | .pset xs, .pset ys => setSubB xs ys && setSubB ys xs
  | .pstr a, .pstr b => a == b
  | .pint a, .pint b => a == b
  | .pint a, .pbool b => a == (if b then 1 else 0)
  | .pbool a, .pint b => (if a then 1 else 0) == b
  | .pbool a, .pbool b => a == b
  | .pnone, .pnone => true
  | _, _ => false
def fieldsSub : PFields → PFields → Bool
  | .fnil, _ => true
  | .fcons k v rest, e =>
    (match e.lookup k with
     | some v' => pyEq v v'
     | none => false) && fieldsSub rest e
def pyEqL : PList → PList → Bool
  | .lnil, .lnil => true
  | .lcons x xs, .lcons y ys => pyEq x y && pyEqL xs ys
  | _, _ => false
end

/-- Dict-against-dict equality, the comparison `self.__dict__ == other`
performs on mapping-shaped operands. -/
def fieldsEqB (f e : PFields) : Bool := f.length == e.length && fieldsSub f e

/-- `JSONWrapper.__eq__` (lines 256-265) for an instance whose `__dict__` is
`flds`.  The `try`/`except TypeError` re-raise around the final comparison
is dead code for the modelled shapes: `dict.__eq__` answers `NotImplemented`
rather than raising, so `self.__dict__ == other` evaluates to `False`. -/
def wrapperEq (flds : PFields) (other : PVal) : Except Err Bool :=
  match other with
  | .pdict d => .ok (fieldsEqB flds d)
  | .pwrap g => .ok (fieldsEqB flds g)
  | o => .ok (pyEq (.pdict flds) o)

/-- `__iter__` collected into a dict (lines 276-281 composed with
`dict(...)`): each field value that is itself a wrapper instance is
recursively converted to a plain dict; every other value — including lists
that contain wrapper instances — is yielded unchanged. -/
def toDict : PFields → PFields
  | .fnil => .fnil
  | .fcons k (.pwrap g) rest => .fcons k (.pdict (toDict g)) (toDict rest)
  | .fcons k v rest => .fcons k v (toDict rest)

/-- Full conversion of a wrap result to a plain mapping: `dict(obj)` for a
wrapper object, the identity elsewhere. -/
def toDictTop : PVal → PVal
  | .pwrap f => .pdict (toDict f)
  | v => v

/-- `__getitem__` (lines 283-286) of an instance of a class with annotation
table `s?` whose `__dict__` is `flds`: `hasattr`/`getattr` consult the
instance dict first and fall back to the class attributes, which for the
modelled classes are the declared defaults; only when both miss is
`KeyError(item)` raised. -/
def getitem (s? : Option Schema) (flds : PFields) (item : String) : Except Err PVal :=
  match flds.lookup item with
  | some v => .ok v
  | none =>
    match s?.bind (fun s => s.lookupDefault item) with
    | some d => .ok d
    | none => .error (.missingAttr item)

/-- Which shapes expose `dict.items`-style attributes (line 210): only
dicts; wrapper instances define none of the dict protocol. -/
def hasAttrItems : PVal → Bool
  | .pdict _ => true
  | _ => false

/-- Which shapes expose `__iter__` (line 244): dicts, lists, tuples, sets,
generators, strings, and wrapper instances (which define `__iter__`). -/
def hasAttrIter : PVal → Bool
  | .pdict _ => true
  | .plist _ => true
  | .ptuple _ => true
  | .pset _ => true
  | .pgen _ => true
  | .pstr _ => true
  | .pwrap _ => true
  | _ => false

/-- Which shapes expose a `list.clear`-style attribute (line 245): dicts,
lists and sets do; tuples, generators and strings do not. -/
def hasAttrClear : PVal → Bool
  | .pdict _ => true
  | .plist _ => true
  | .pset _ => true
  | _ => false

/- Raw parser output: nested dicts with pairwise-distinct keys, lists and
scalars — no wrapper instances, tuples, sets or generators. -/
mutual
def rawOk : PVal → Bool
  | .pdict m => decide m.keys.Nodup && rawOkF m
  | .plist xs => rawOkL xs
  | .pwrap _ => false
  | .ptuple _ => false
  | .pset _ => false
  | .pgen _ => false
  | _ => true
def rawOkF : PFields → Bool
  | .fnil => true
  | .fcons _ v rest => rawOk v && rawOkF rest
def rawOkL : PList → Bool
  | .lnil => true
  | .lcons x xs => rawOk x && rawOkL xs
end

/- The input "already exactly satisfies its schema": along the exact
traversal `construct` performs, no dict node with an active schema is
missing a defaulted field (so no default is ever injected).  Generic
sub-constructions carry no schema and never inject defaults, so only the
schema'd spine is constrained. -/
mutual
def exactFit (s? : Option Schema) (ann strict typ : Bool) : PVal → Bool
  | .pdict m =>
    match s? with
    | some s =>
      let annR := ann || typ || strict
      (if annR then decide (absentDefaults s m = .fnil) else true) &&
        exactFitF (some s) annR strict typ m
    | none => true
  | _ => true
def exactFitF (s? : Option Schema) (annR strict typ : Bool) : PFields → Bool
  | .fnil => true
  | .fcons k v rest =>
    (match nestedOf s? annR k with
     | some (s', a', b', c') => exactFit (some s') a' b' c' v
     | none => true) && exactFitF s? annR strict typ rest
end

/- `w` is a wrapped form of `v` carrying exactly `v`'s structure: equal key
sequences on the dict spine, equal lengths on lists, scalars unchanged. -/
mutual
inductive Wraps : PVal → PVal → Prop where
  | scal : ∀ v, hasAttrItems v = false → (hasAttrIter v && hasAttrClear v) = false →
      Wraps v v
  | list : ∀ ws vs, WrapsL ws vs → Wraps (.plist ws) (.plist vs)
  | dict : ∀ fw m, WrapsF fw m → Wraps (.pwrap fw) (.pdict m)
inductive WrapsF : PFields → PFields → Prop where
  | fnil : WrapsF .fnil .fnil
  | fcons : ∀ k w v fw m, Wraps w v → WrapsF fw m →
      WrapsF (.fcons k w fw) (.fcons k v m)
inductive WrapsL : PList → PList → Prop where
  | lnil : WrapsL .lnil .lnil
  | lcons : ∀ w v ws vs, Wraps w v → WrapsL ws vs →
      WrapsL (.lcons w ws) (.lcons v vs)
end

/-! Concrete schemas and inputs used to instantiate the theorems below on
the scenarios of the specification. -/

/-- Schema `{a: str, d: int}` of the missing-field scenario. -/
def exSchemaAD : Schema := .scons "a" .tStr none (.scons "d" .tInt none .snil)

/-- Input `{'a': 'x'}`. -/
def exInputA : PFields := .fcons "a" (.pstr "x") .fnil

/-- Schema `{a: int, b: str = 5}` whose default violates its own type. -/
def exSchemaBadDefault : Schema :=
  .scons "a" .tInt none (.scons "b" .tStr (some (.pint 5)) .snil)

/-- Schema `{a: str, b: int}` of the strict-extra-field scenario. -/
def exSchemaAB : Schema := .scons "a" .tStr none (.scons "b" .tInt none .snil)

/-- Input `{'a': 'x', 'b': 1, 'c': 2}`. -/
def exInputABC : PFields :=
  .fcons "a" (.pstr "x") (.fcons "b" (.pint 1) (.fcons "c" (.pint 2) .fnil))

/-- Input `{'c': 2}`. -/
def exInputC : PFields := .fcons "c" (.pint 2) .fnil

/-- Nested schema `{d: str}` bound to `annotations_strict` only. -/
def exSchemaInnerD : Schema := .scons "d" .tStr none .snil

/-- Schema `{c: InnerD}` whose field type is the strict nested class. -/
def exSchemaNestStrict : Schema :=
  .scons "c" (.tWrapper exSchemaInnerD false true false) none .snil

/-- Input `{'c': {'d': 'x', 'e': 1}}` — extra key inside the nested value. -/
def exInputNestExtra : PFields :=
  .fcons "c" (.pdict (.fcons "d" (.pstr "x") (.fcons "e" (.pint 1) .fnil))) .fnil

/-- Input `{'a': 'x', 'b': 1, 'k3': {'k4': 4}}` for the round trip. -/
def exInputRound : PFields :=
  .fcons "a" (.pstr "x")
    (.fcons "b" (.pint 1) (.fcons "k3" (.pdict (.fcons "k4" (.pint 4) .fnil)) .fnil))

/-- Schema `{a: str, b: int = 1}` of the default-applied scenario. -/
def exSchemaDefault : Schema :=
  .scons "a" .tStr none (.scons "b" .tInt (some (.pint 1)) .snil)

/-- Schema `{c: [int]}` — bare list literal annotation. -/
def exSchemaBare : Schema := .scons "c" .tBareList none .snil

/-- Schema `{c: list}` — the plain `list` class as annotation. -/
def exSchemaListClass : Schema := .scons "c" .tListClass none .snil

/-- Input `{'c': []}`. -/
def exInputCList : PFields := .fcons "c" (.plist .lnil) .fnil

/-- Nested schema `{bar_key: str}` bound to all-flags-off. -/
def exSchemaInnerBar : Schema := .scons "bar_key" .tStr none .snil

/-- Schema `{c: InnerBar}` — nested wrapper class with no checks bound. -/
def exSchemaNestOff : Schema :=
  .scons "c" (.tWrapper exSchemaInnerBar false false false) none .snil

/-- Input `{'c': {}}` — the nested value is empty. -/
def exInputNestEmpty : PFields := .fcons "c" (.pdict .fnil) .fnil

/-- A one-field `__dict__` `{'a': 1}`. -/
def exFieldsA1 : PFields := .fcons "a" (.pint 1) .fnil

/-- Input `{'foo': 'bar', 'key3': {'key4': 4}}`. -/
def exInputFoo : PFields :=
  .fcons "foo" (.pstr "bar") (.fcons "key3" (.pdict (.fcons "key4" (.pint 4) .fnil)) .fnil)

/-- Schema `{b: int = 1}`. -/
def exSchemaB1 : Schema := .scons "b" .tInt (some (.pint 1)) .snil

/-- The set `{1}` as input. -/
def exInputSet : PVal := .pset (.lcons (.pint 1) .lnil)

/-! Helper lemmas about the embedding. -/

theorem ebind_ok {α β : Type} {e : Except Err α} {f : α → Except Err β} {b : β} :
    (e >>= f) = Except.ok b ↔ ∃ a, e = Except.ok a ∧ f a = Except.ok b := by
  cases e <;> simp [Bind.bind, Except.bind]

theorem emap_ok {α β : Type} {e : Except Err α} {f : α → β} {b : β} :
    Except.map f e = Except.ok b ↔ ∃ a, e = Except.ok a ∧ f a = b := by
  cases e <;> simp [Except.map]

theorem mem_keysFin {k : String} {m : PFields} : k ∈ keysFin m ↔ k ∈ m.keys := by
  simp [keysFin]

theorem mem_schema_keysFin {k : String} {s : Schema} :
    k ∈ s.keysFin ↔ k ∈ s.keysList := by
  simp [Schema.keysFin]

theorem mem_defaultedFin {k : String} {s : Schema} :
    k ∈ s.defaultedFin ↔ k ∈ s.defaultedList := by
  simp [Schema.defaultedFin]

theorem defaultedList_subset_keysList :
    ∀ (s : Schema) {k : String}, k ∈ s.defaultedList → k ∈ s.keysList
  | .snil, _, h => by simp [Schema.defaultedList] at h
  | .scons k0 t (some d) rest, k, h => by
      rw [Schema.defaultedList] at h
      rw [Schema.keysList]
      rcases List.mem_cons.mp h with h | h
      · exact List.mem_cons.mpr (Or.inl h)
      · exact List.mem_cons.mpr (Or.inr (defaultedList_subset_keysList rest h))
  | .scons k0 t none rest, k, h => by
      rw [Schema.defaultedList] at h
      rw [Schema.keysList]
      exact List.mem_cons.mpr (Or.inr (defaultedList_subset_keysList rest h))

theorem defaultedFin_subset {s : Schema} : s.defaultedFin ⊆ s.keysFin := by
  intro k hk
  exact mem_schema_keysFin.mpr (defaultedList_subset_keysList s (mem_defaultedFin.mp hk))

theorem checkDefaults_ok_of_wellTyped :
    ∀ (s : Schema), s.wellTypedDefaults = true → checkDefaults s = .ok ()
  | .snil, _ => rfl
  | .scons k t (some d) rest, h => by
      rw [Schema.wellTypedDefaults, Bool.and_eq_true] at h
      rw [checkDefaults, if_pos h.1]
      exact checkDefaults_ok_of_wellTyped rest h.2
  | .scons k t none rest, h => by
      rw [Schema.wellTypedDefaults] at h
      rw [checkDefaults]
      exact checkDefaults_ok_of_wellTyped rest h

theorem required_subset_iff {s : Schema} {m : PFields} :
    (s.keysFin \ s.defaultedFin) ⊆ (keysFin m \ s.defaultedFin) ↔
      s.requiredFin ⊆ keysFin m := by
  constructor
  · intro h k hk
    have := h hk
    exact (Finset.mem_sdiff.mp this).1
  · intro h k hk
    rcases Finset.mem_sdiff.mp hk with ⟨_, hnd⟩
    exact Finset.mem_sdiff.mpr ⟨h hk, hnd⟩

theorem missing_payload_eq {s : Schema} {m : PFields} :
    (s.keysFin \ s.defaultedFin) \ (keysFin m \ s.defaultedFin) =
      s.requiredFin \ keysFin m := by
  ext x
  simp only [Finset.mem_sdiff, Schema.requiredFin]
  tauto

theorem strict_payload_eq {s : Schema} {m : PFields} :
    (keysFin m \ s.defaultedFin) \ (s.keysFin \ s.defaultedFin) =
      keysFin m \ s.keysFin := by
  ext x
  have hds : x ∈ s.defaultedFin → x ∈ s.keysFin := fun h => defaultedFin_subset h
  simp only [Finset.mem_sdiff]
  tauto

theorem dictKeysChecks_missing {s : Schema} {m : PFields} (strict : Bool)
    (h : ¬ s.requiredFin ⊆ keysFin m) :
    dictKeysChecks s strict m = .error (.missingField (s.requiredFin \ keysFin m)) := by
  rw [dictKeysChecks]
  rw [if_neg (fun hsub => h (required_subset_iff.mp hsub))]
  rw [missing_payload_eq]

theorem strict_subset_of_keys {s : Schema} {m : PFields}
    (h : keysFin m ⊆ s.keysFin) :
    (keysFin m \ s.defaultedFin) ⊆ (s.keysFin \ s.defaultedFin) := by
  intro x hx
  rcases Finset.mem_sdiff.mp hx with ⟨hm, hnd⟩
  exact Finset.mem_sdiff.mpr ⟨h hm, hnd⟩

theorem keys_subset_of_strict {s : Schema} {m : PFields}
    (h : (keysFin m \ s.defaultedFin) ⊆ (s.keysFin \ s.defaultedFin)) :
    keysFin m ⊆ s.keysFin := by
  intro x hx
  by_cases hd : x ∈ s.defaultedFin
  · exact defaultedFin_subset hd
  · exact (Finset.mem_sdiff.mp (h (Finset.mem_sdiff.mpr ⟨hx, hd⟩))).1

theorem dictKeysChecks_strict {s : Schema} {m : PFields}
    (hreq : s.requiredFin ⊆ keysFin m) (h : ¬ keysFin m ⊆ s.keysFin) :
    dictKeysChecks s true m = .error (.unexpectedField (keysFin m \ s.keysFin)) := by
  rw [dictKeysChecks]
  rw [if_pos (required_subset_iff.mpr hreq)]
  rw [if_pos rfl]
  rw [if_neg (fun hsub => h (keys_subset_of_strict hsub))]
  rw [strict_payload_eq]

theorem dictKeysChecks_ok {s : Schema} {m : PFields} (strict : Bool)
    (hreq : s.requiredFin ⊆ keysFin m) (hsub : keysFin m ⊆ s.keysFin) :
    dictKeysChecks s strict m = .ok () := by
  rw [dictKeysChecks]
  rw [if_pos (required_subset_iff.mpr hreq)]
  cases strict
  · rfl
  · rw [if_pos rfl, if_pos (strict_subset_of_keys hsub)]

/- The generic recursion (`cls = JSONWrapper`, no annotation table, so every
check is disabled) computes exactly the reference function `wrap0` and never
raises. -/
theorem nestedOf_none {annR : Bool} {k : String} : nestedOf none annR k = none := by
  cases annR <;> rfl

mutual
theorem construct_none_ok : ∀ (v : PVal) (ann strict typ : Bool),
    construct none ann strict typ v = .ok (wrap0 v)
  | .pdict m, _, strict, typ => by
      rw [construct, wrap0, buildFields_none_ok m]
      rfl
  | .plist xs, ann, strict, typ => by
      rw [construct, wrap0, wrapAll_none_ok xs]
      rfl
  | .pset xs, ann, strict, typ => by
      rw [construct, wrap0, wrapAll_none_ok xs]
      rfl
  | .ptuple _, _, _, _ => rfl
  | .pgen _, _, _, _ => rfl
  | .pwrap _, _, _, _ => rfl
  | .pstr _, _, _, _ => rfl
  | .pint _, _, _, _ => rfl
  | .pbool _, _, _, _ => rfl
  | .pnone, _, _, _ => rfl
theorem buildFields_none_ok : ∀ (m : PFields) (annR strict typ : Bool),
    buildFields none annR strict typ m = .ok (wrap0F m)
  | .fnil, _, _, _ => rfl
  | .fcons k v rest, annR, strict, typ => by
      rw [buildFields, wrap0F, nestedOf_none]
      simp [construct_none_ok v, buildFields_none_ok rest,
        Bind.bind, Except.bind, Except.map]
theorem wrapAll_none_ok : ∀ (xs : PList) (annR strict typ : Bool),
    wrapAll annR strict typ xs = .ok (wrap0L xs)
  | .lnil, _, _, _ => rfl
  | .lcons x xs, annR, strict, typ => by
      rw [wrapAll, wrap0L]
      simp [construct_none_ok x, wrapAll_none_ok xs,
        Bind.bind, Except.bind, Except.map]
end

/- The generic wrap of raw parser output is a faithful wrapped form. -/
mutual
theorem wrap0_wraps : ∀ (v : PVal), rawOk v = true → Wraps (wrap0 v) v
  | .pdict m, h => by
      rw [rawOk, Bool.and_eq_true] at h
      rw [wrap0]
      exact Wraps.dict _ _ (wrap0F_wraps m h.2)
  | .plist xs, h => by
      rw [rawOk] at h
      rw [wrap0]
      exact Wraps.list _ _ (wrap0L_wraps xs h)
  | .pset _, h => by rw [rawOk] at h; exact absurd h (by simp)
  | .ptuple _, h => by rw [rawOk] at h; exact absurd h (by simp)
  | .pgen _, h => by rw [rawOk] at h; exact absurd h (by simp)
  | .pwrap _, h => by rw [rawOk] at h; exact absurd h (by simp)
  | .pstr s, _ => Wraps.scal _ rfl rfl
  | .pint n, _ => Wraps.scal _ rfl rfl
  | .pbool b, _ => Wraps.scal _ rfl rfl
  | .pnone, _ => Wraps.scal _ rfl rfl
theorem wrap0F_wraps : ∀ (m : PFields), rawOkF m = true → WrapsF (wrap0F m) m
  | .fnil, _ => WrapsF.fnil
  | .fcons k v rest, h => by
      rw [rawOkF, Bool.and_eq_true] at h
      rw [wrap0F]
      exact WrapsF.fcons k _ v _ rest (wrap0_wraps v h.1) (wrap0F_wraps rest h.2)
theorem wrap0L_wraps : ∀ (xs : PList), rawOkL xs = true → WrapsL (wrap0L xs) xs
  | .lnil, _ => WrapsL.lnil
  | .lcons x xs, h => by
      rw [rawOkL, Bool.and_eq_true] at h
      rw [wrap0L]
      exact WrapsL.lcons _ x _ xs (wrap0_wraps x h.1) (wrap0L_wraps xs h.2)
end

theorem wrapsF_keys : ∀ {fw m : PFields}, WrapsF fw m → fw.keys = m.keys
  | .fnil, .fnil, _ => rfl
  | .fcons _ _ fw, .fcons _ _ m, h => by
      cases h with
      | fcons k w v fw m hw hf =>
          rw [PFields.keys, PFields.keys, wrapsF_keys hf]
  | .fnil, .fcons _ _ _, h => by cases h
  | .fcons _ _ _, .fnil, h => by cases h

theorem wrapsF_length : ∀ {fw m : PFields}, WrapsF fw m → fw.length = m.length
  | .fnil, .fnil, _ => rfl
  | .fcons _ _ fw, .fcons _ _ m, h => by
      cases h with
      | fcons k w v fw m hw hf =>
          rw [PFields.length, PFields.length, wrapsF_length hf]
  | .fnil, .fcons _ _ _, h => by cases h
  | .fcons _ _ _, .fnil, h => by cases h

theorem lookup_append_left : ∀ {d : PFields} (g : PFields) {k : String} {x : PVal},
    d.lookup k = some x → (d.append g).lookup k = some x
  | .fnil, _, _, _, h => by rw [PFields.lookup] at h; exact absurd h (by simp)
  | .fcons k0 v0 rest, g, k, x, h => by
      rw [PFields.lookup] at h
      rw [PFields.append, PFields.lookup]
      by_cases hk : k0 = k
      · rw [if_pos hk] at h ⊢; exact h
      · rw [if_neg hk] at h ⊢; exact lookup_append_left g h

theorem lookup_append_right : ∀ {d : PFields} (g : PFields) {k : String},
    d.lookup k = none → (d.append g).lookup k = g.lookup k
  | .fnil, _, _, _ => rfl
  | .fcons k0 v0 rest, g, k, h => by
      rw [PFields.lookup] at h
      rw [PFields.append, PFields.lookup]
      by_cases hk : k0 = k
      · rw [if_pos hk] at h; exact absurd h (by simp)
      · rw [if_neg hk] at h ⊢; exact lookup_append_right g h

theorem absentDefaults_lookup_none : ∀ (s : Schema) {m : PFields} {k : String},
    k ∈ keysFin m → (absentDefaults s m).lookup k = none
  | .snil, _, _, _ => rfl
  | .scons k0 t (some d) rest, m, k, h => by
      rw [absentDefaults]
      by_cases h0 : k0 ∈ keysFin m
      · rw [if_pos h0]; exact absentDefaults_lookup_none rest h
      · rw [if_neg h0, PFields.lookup, if_neg (fun he => h0 (by rw [he]; exact h))]
        exact absentDefaults_lookup_none rest h
  | .scons k0 t none rest, m, k, h => by
      rw [absentDefaults]; exact absentDefaults_lookup_none rest h

theorem absentDefaults_lookup_some : ∀ (s : Schema) {m : PFields} {k : String} {d : PVal},
    s.lookupDefault k = some d → k ∉ keysFin m → (absentDefaults s m).lookup k = some d
  | .snil, _, _, _, h, _ => by rw [Schema.lookupDefault] at h; exact absurd h (by simp)
  | .scons k0 t d0 rest, m, k, d, h, habs => by
      rw [Schema.lookupDefault] at h
      rw [absentDefaults.eq_def]
      by_cases hk : k0 = k
      · rw [if_pos hk] at h
        subst hk
        cases d0 with
        | none => exact absurd h (by simp)
        | some d0 =>
            rw [h]
            simp only
            rw [if_neg habs, PFields.lookup, if_pos rfl]
      · rw [if_neg hk] at h
        cases d0 with
        | none => simp only; exact absentDefaults_lookup_some rest h habs
        | some d0 =>
            simp only
            by_cases h0 : k0 ∈ keysFin m
            · rw [if_pos h0]; exact absentDefaults_lookup_some rest h habs
            · rw [if_neg h0, PFields.lookup, if_neg hk]
              exact absentDefaults_lookup_some rest h habs

theorem toDict_cons (k : String) (v : PVal) (rest : PFields) :
    toDict (.fcons k v rest) = .fcons k (toDictTop v) (toDict rest) := by
  cases v <;> rfl

theorem toDict_keys : ∀ (f : PFields), (toDict f).keys = f.keys
  | .fnil => rfl
  | .fcons k v rest => by
      rw [toDict_cons, PFields.keys, PFields.keys, toDict_keys rest]

theorem toDict_length : ∀ (f : PFields), (toDict f).length = f.length
  | .fnil => rfl
  | .fcons k v rest => by
      rw [toDict_cons, PFields.length, PFields.length, toDict_length rest]

theorem lookup_head (k : String) (v : PVal) (rest : PFields) :
    PFields.lookup (.fcons k v rest) k = some v := by
  rw [PFields.lookup, if_pos rfl]

/- A wrapped form of raw parser output is `==`-equal to the original: the
core of the round-trip property.  The `M`-generalized fields version lets
the lookups range over the full enclosing dict while recursing through its
tail. -/
mutual
theorem wraps_pyEq : ∀ (w v : PVal), Wraps w v → rawOk v = true → pyEq w v = true
  | .pwrap fw, v, h, hr => by
      cases h with
      | scal _ h1 h2 => rw [rawOk] at hr; exact absurd hr (by simp)
      | dict _ m hf =>
          rw [rawOk, Bool.and_eq_true] at hr
          rw [pyEq, Bool.and_eq_true]
          constructor
          · rw [wrapsF_length hf]; simp
          · exact wrapsF_fieldsSub fw m m hf hr.2
              (of_decide_eq_true hr.1) (fun _ _ => rfl)
  | .plist ws, v, h, hr => by
      cases h with
      | scal _ h1 h2 => simp [hasAttrIter, hasAttrClear] at h2
      | list _ vs hl =>
          rw [rawOk] at hr
          rw [pyEq]
          exact wrapsL_pyEqL ws vs hl hr
  | .pdict f, v, h, hr => by
      cases h with
      | scal _ h1 h2 => simp [hasAttrItems] at h1
  | .ptuple xs, v, h, hr => by
      cases h with
      | scal _ h1 h2 => rw [rawOk] at hr; exact absurd hr (by simp)
  | .pset xs, v, h, hr => by
      cases h with
      | scal _ h1 h2 => simp [hasAttrIter, hasAttrClear] at h2
  | .pgen xs, v, h, hr => by
      cases h with
      | scal _ h1 h2 => rw [rawOk] at hr; exact absurd hr (by simp)
  | .pstr s, v, h, hr => by
      cases h with
      | scal _ _ _ => rw [pyEq]; simp
  | .pint n, v, h, hr => by
      cases h with
      | scal _ _ _ => rw [pyEq]; simp
  | .pbool b, v, h, hr => by
      cases h with
      | scal _ _ _ => rw [pyEq]; simp
  | .pnone, v, h, hr => by
      cases h with
      | scal _ _ _ => rw [pyEq]
theorem wrapsF_fieldsSub : ∀ (fw m M : PFields), WrapsF fw m → rawOkF m = true →
    m.keys.Nodup → (∀ k, k ∈ fw.keys → M.lookup k = m.lookup k) →
    fieldsSub fw M = true
  | .fnil, _, _, _, _, _, _ => rfl
  | .fcons k w fwrest, m, M, h, hr, hnd, hL => by
      cases h with
      | fcons _ _ v _ mrest hw hf =>
          rw [rawOkF, Bool.and_eq_true] at hr
          rw [PFields.keys, List.nodup_cons] at hnd
          have hMk : M.lookup k = some v := by
            rw [hL k (by rw [PFields.keys]; exact List.mem_cons_self k _),
              lookup_head]
          rw [fieldsSub, hMk, Bool.and_eq_true]
          constructor
          · exact wraps_pyEq w v hw hr.1
          · refine wrapsF_fieldsSub fwrest mrest M hf hr.2 hnd.2 ?_
            intro k' hk'
            have hne : k ≠ k' := by
              intro he
              apply hnd.1
              rw [he, ← wrapsF_keys hf]
              exact hk'
            rw [hL k' (by rw [PFields.keys]; exact List.mem_cons_of_mem _ hk'),
              PFields.lookup, if_neg hne]
theorem wrapsL_pyEqL : ∀ (ws vs : PList), WrapsL ws vs → rawOkL vs = true →
    pyEqL ws vs = true
  | .lnil, vs, h, _ => by cases h; rfl
  | .lcons w ws, vs, h, hr => by
      cases h with
      | lcons _ v _ vs' hw hl =>
          rw [rawOkL, Bool.and_eq_true] at hr
          rw [pyEqL, Bool.and_eq_true]
          exact ⟨wraps_pyEq w v hw hr.1, wrapsL_pyEqL ws vs' hl hr.2⟩
end

/- The same, after the `__iter__` / `dict(...)` conversion of the wrapper
spine: nested wrapper fields are flattened to plain dicts, list elements are
left as wrapped objects, and Python `==` still identifies the result with
the original input. -/
mutual
theorem wraps_pyEq_toDict : ∀ (w v : PVal), Wraps w v → rawOk v = true →
    pyEq (toDictTop w) v = true
  | .pwrap fw, v, h, hr => by
      cases h with
      | scal _ h1 h2 => rw [rawOk] at hr; exact absurd hr (by simp)
      | dict _ m hf =>
          rw [rawOk, Bool.and_eq_true] at hr
          rw [toDictTop, pyEq, Bool.and_eq_true]
          constructor
          · rw [toDict_length, wrapsF_length hf]; simp
          · exact wrapsF_fieldsSub_toDict fw m m hf hr.2
              (of_decide_eq_true hr.1) (fun _ _ => rfl)
  | .plist ws, v, h, hr => wraps_pyEq _ v h hr
  | .pdict f, v, h, hr => by
      cases h with
      | scal _ h1 h2 => simp [hasAttrItems] at h1
  | .ptuple xs, v, h, hr => wraps_pyEq _ v h hr
  | .pset xs, v, h, hr => wraps_pyEq _ v h hr
  | .pgen xs, v, h, hr => wraps_pyEq _ v h hr
  | .pstr s, v, h, hr => wraps_pyEq _ v h hr
  | .pint n, v, h, hr => wraps_pyEq _ v h hr
  | .pbool b, v, h, hr => wraps_pyEq _ v h hr
  | .pnone, v, h, hr => wraps_pyEq _ v h hr
theorem wrapsF_fieldsSub_toDict : ∀ (fw m M : PFields), WrapsF fw m →
    rawOkF m = true → m.keys.Nodup →
    (∀ k, k ∈ fw.keys → M.lookup k = m.lookup k) →
    fieldsSub (toDict fw) M = true
  | .fnil, _, _, _, _, _, _ => rfl
  | .fcons k w fwrest, m, M, h, hr, hnd, hL => by
      cases h with
      | fcons _ _ v _ mrest hw hf =>
          rw [rawOkF, Bool.and_eq_true] at hr
          rw [PFields.keys, List.nodup_cons] at hnd
          have hMk : M.lookup k = some v := by
            rw [hL k (by rw [PFields.keys]; exact List.mem_cons_self k _),
              lookup_head]
          rw [toDict_cons, fieldsSub, hMk, Bool.and_eq_true]
          constructor
          · exact wraps_pyEq_toDict w v hw hr.1
          · refine wrapsF_fieldsSub_toDict fwrest mrest M hf hr.2 hnd.2 ?_
            intro k' hk'
            have hne : k ≠ k' := by
              intro he
              apply hnd.1
              rw [he, ← wrapsF_keys hf]
              exact hk'
            rw [hL k' (by rw [PFields.keys]; exact List.mem_cons_of_mem _ hk'),
              PFields.lookup, if_neg hne]
end

/- A successful construction of raw input that needed no default injection
produces a faithful wrapped form of the input. -/
mutual
theorem construct_wraps : ∀ (v : PVal) (s? : Option Schema) (ann strict typ : Bool)
    (w : PVal), rawOk v = true → exactFit s? ann strict typ v = true →
    construct s? ann strict typ v = .ok w → Wraps w v
  | .pdict m, s?, ann, strict, typ, w, hr, hf, hok => by
      rw [rawOk, Bool.and_eq_true] at hr
      cases s? with
      | none =>
          rw [construct_none_ok] at hok
          rw [← Except.ok.inj hok, wrap0]
          exact Wraps.dict _ _ (wrap0F_wraps m hr.2)
      | some s =>
          simp only [construct] at hok
          simp only [exactFit, Bool.and_eq_true] at hf
          rcases ebind_ok.mp hok with ⟨u1, h1, hok2⟩
          rcases ebind_ok.mp hok2 with ⟨u2, h2, hok3⟩
          rcases emap_ok.mp hok3 with ⟨bf, hbf, hw⟩
          cases hA : (ann || typ || strict) with
          | true =>
              rw [hA] at hbf hw hf
              have hdefs : absentDefaults s m = .fnil := by
                have := hf.1
                rw [if_pos rfl] at this
                exact of_decide_eq_true this
              rw [if_pos rfl, hdefs] at hw
              rw [← hw]
              exact Wraps.dict _ _
                (buildFields_wraps m (some s) true strict typ bf hr.2 hf.2 hbf)
          | false =>
              rw [hA] at hbf hw hf
              rw [if_neg (by simp)] at hw
              rw [← hw]
              exact Wraps.dict _ _
                (buildFields_wraps m (some s) false strict typ bf hr.2 hf.2 hbf)
  | .plist xs, s?, ann, strict, typ, w, hr, hf, hok => by
      rw [rawOk] at hr
      simp only [construct] at hok
      rw [wrapAll_none_ok] at hok
      rcases emap_ok.mp hok with ⟨ws, hws, hw⟩
      rw [← hw, ← Except.ok.inj hws]
      exact Wraps.list _ _ (wrap0L_wraps xs hr)
  | .pset xs, s?, ann, strict, typ, w, hr, hf, hok => by
      rw [rawOk] at hr
      exact absurd hr (by simp)
  | .ptuple xs, s?, ann, strict, typ, w, hr, hf, hok => by
      rw [← Except.ok.inj hok]
      exact Wraps.scal _ rfl rfl
  | .pgen xs, s?, ann, strict, typ, w, hr, hf, hok => by
      rw [← Except.ok.inj hok]
      exact Wraps.scal _ rfl rfl
  | .pwrap f, s?, ann, strict, typ, w, hr, hf, hok => by
      rw [rawOk] at hr
      exact absurd hr (by simp)
  | .pstr x, s?, ann, strict, typ, w, hr, hf, hok => by
      rw [← Except.ok.inj hok]
      exact Wraps.scal _ rfl rfl
  | .pint x, s?, ann, strict, typ, w, hr, hf, hok => by
      rw [← Except.ok.inj hok]
      exact Wraps.scal _ rfl rfl
  | .pbool x, s?, ann, strict, typ, w, hr, hf, hok => by
      rw [← Except.ok.inj hok]
      exact Wraps.scal _ rfl rfl
  | .pnone, s?, ann, strict, typ, w, hr, hf, hok => by
      rw [← Except.ok.inj hok]
      exact Wraps.scal _ rfl rfl
theorem buildFields_wraps : ∀ (m : PFields) (s? : Option Schema)
    (annR strict typ : Bool) (bf : PFields), rawOkF m = true →
    exactFitF s? annR strict typ m = true →
    buildFields s? annR strict typ m = .ok bf → WrapsF bf m
  | .fnil, _, _, _, _, bf, _, _, hok => by
      rw [← Except.ok.inj hok]
      exact WrapsF.fnil
  | .fcons k v rest, s?, annR, strict, typ, bf, hr, hf, hok => by
      rw [rawOkF, Bool.and_eq_true] at hr
      rw [exactFitF, Bool.and_eq_true] at hf
      rw [buildFields] at hok
      cases hN : nestedOf s? annR k with
      | some q =>
          obtain ⟨s', a', b', c'⟩ := q
          rw [hN] at hok hf
          rcases ebind_ok.mp hok with ⟨w0, hw0, hok2⟩
          rcases emap_ok.mp hok2 with ⟨bfr, hbfr, hbf⟩
          rw [← hbf]
          exact WrapsF.fcons k w0 v bfr rest
            (construct_wraps v (some s') a' b' c' w0 hr.1 hf.1 hw0)
            (buildFields_wraps rest s? annR strict typ bfr hr.2 hf.2 hbfr)
      | none =>
          rw [hN] at hok
          rcases ebind_ok.mp hok with ⟨w0, hw0, hok2⟩
          rcases emap_ok.mp hok2 with ⟨bfr, hbfr, hbf⟩
          rw [construct_none_ok] at hw0
          rw [← hbf, ← Except.ok.inj hw0]
          exact WrapsF.fcons k _ v bfr rest (wrap0_wraps v hr.1)
            (buildFields_wraps rest s? annR strict typ bfr hr.2 hf.2 hbfr)
end

theorem lookupType_noWrapper : ∀ (s : Schema) {k : String} {t : PyType},
    s.noWrapperTypes = true → s.lookupType k = some t → t.isWrapper = false
  | .snil, _, _, _, ht => by rw [Schema.lookupType] at ht; exact absurd ht (by simp)
  | .scons k0 t0 d0 rest, k, t, hnw, ht => by
      rw [Schema.noWrapperTypes, Bool.and_eq_true] at hnw
      rw [Schema.lookupType] at ht
      by_cases hk : k0 = k
      · rw [if_pos hk] at ht
        rw [← Option.some.inj ht]
        have := hnw.1
        cases t0 <;> simp [PyType.isWrapper] at this ⊢
      · rw [if_neg hk] at ht
        exact lookupType_noWrapper rest hnw.2 ht

theorem nestedOf_noWrapper {s : Schema} (h : s.noWrapperTypes = true)
    (annR : Bool) (k : String) : nestedOf (some s) annR k = none := by
  cases annR with
  | false => rfl
  | true =>
      rw [nestedOf]
      cases ht : s.lookupType k with
      | none => simp [Option.bind, ht]
      | some t =>
          have hw := lookupType_noWrapper s h ht
          cases t <;> simp [Option.bind, ht] <;> simp [PyType.isWrapper] at hw

theorem buildFields_noWrapper_ok : ∀ (m : PFields) {s : Schema}
    (annR strict typ : Bool), s.noWrapperTypes = true →
    buildFields (some s) annR strict typ m = .ok (wrap0F m)
  | .fnil, _, _, _, _, _ => rfl
  | .fcons k v rest, s, annR, strict, typ, h => by
      rw [buildFields, nestedOf_noWrapper h, wrap0F]
      simp [construct_none_ok v, buildFields_noWrapper_ok rest annR strict typ h,
        Bind.bind, Except.bind, Except.map]

theorem checkDefaults_shape : ∀ (s : Schema),
    checkDefaults s = .ok () ∨ ∃ k, checkDefaults s = .error (.schemaDecl k)
  | .snil => Or.inl rfl
  | .scons k t (some d) rest => by
      rw [checkDefaults]
      by_cases hc : checkTypeB t d
      · rw [if_pos hc]; exact checkDefaults_shape rest
      · rw [if_neg hc]; exact Or.inr ⟨k, rfl⟩
  | .scons k t none rest => by
      rw [checkDefaults]; exact checkDefaults_shape rest

theorem checkItems_shape : ∀ (s : Schema) (m : PFields),
    checkItems s m = .ok () ∨ (∃ k, checkItems s m = .error (.schemaDecl k)) ∨
      ∃ k, checkItems s m = .error (.typeMismatch k)
  | _, .fnil => Or.inl rfl
  | s, .fcons k v rest => by
      cases ht : s.lookupType k with
      | none =>
          simp only [checkItems, ht]
          exact checkItems_shape s rest
      | some t =>
          by_cases hb : t.isBareList = true
          · simp only [checkItems, ht, if_pos hb]
            exact Or.inr (Or.inl ⟨k, rfl⟩)
          · by_cases hc : checkTypeB t v = true
            · simp only [checkItems, ht, if_neg hb, if_pos hc]
              exact checkItems_shape s rest
            · simp only [checkItems, ht, if_neg hb, if_neg hc]
              exact Or.inr (Or.inr ⟨k, rfl⟩)

theorem checkItems_err_of_bare : ∀ (s : Schema) (m : PFields) {k : String},
    k ∈ m.keys → s.lookupType k = some .tBareList →
    ∃ e, checkItems s m = .error e
  | s, .fnil, k, hk, _ => by rw [PFields.keys] at hk; exact absurd hk (by simp)
  | s, .fcons k0 v0 rest, k, hk, ht => by
      rw [PFields.keys] at hk
      cases ht0 : s.lookupType k0 with
      | none =>
          have hne : k ≠ k0 := fun he => by rw [he, ht0] at ht; exact absurd ht (by simp)
          simp only [checkItems, ht0]
          exact checkItems_err_of_bare s rest
            ((List.mem_cons.mp hk).resolve_left hne) ht
      | some t0 =>
          by_cases hb : t0.isBareList = true
          · simp only [checkItems, ht0, if_pos hb]
            exact ⟨_, rfl⟩
          · have hne : k ≠ k0 := by
              intro he
              rw [he, ht0] at ht
              rw [Option.some.inj ht] at hb
              exact hb rfl
            by_cases hc : checkTypeB t0 v0 = true
            · simp only [checkItems, ht0, if_neg hb, if_pos hc]
              exact checkItems_err_of_bare s rest
                ((List.mem_cons.mp hk).resolve_left hne) ht
            · simp only [checkItems, ht0, if_neg hb, if_neg hc]
              exact ⟨_, rfl⟩

theorem buildFields_lookup_nested : ∀ (m : PFields) (s : Schema)
    (annR strict typ : Bool) (bf : PFields) (k : String) (v : PVal)
    (s' : Schema) (a' b' c' : Bool),
    buildFields (some s) annR strict typ m = .ok bf → m.lookup k = some v →
    nestedOf (some s) annR k = some (s', a', b', c') →
    ∃ w, construct (some s') a' b' c' v = .ok w ∧ bf.lookup k = some w
  | .fnil, s, annR, strict, typ, bf, k, v, s', a', b', c', _, hv, _ => by
      rw [PFields.lookup] at hv
      exact absurd hv (by simp)
  | .fcons k0 v0 rest, s, annR, strict, typ, bf, k, v, s', a', b', c', hok, hv, hN => by
      rw [PFields.lookup] at hv
      rw [buildFields] at hok
      by_cases hk : k0 = k
      · subst hk
        rw [if_pos rfl] at hv
        rw [hN] at hok
        rcases ebind_ok.mp hok with ⟨w0, hw0, hok2⟩
        rcases emap_ok.mp hok2 with ⟨bfr, hbfr, hbf⟩
        refine ⟨w0, ?_, ?_⟩
        · rw [Option.some.inj hv] at hw0; exact hw0
        · rw [← hbf, lookup_head]
      · rw [if_neg hk] at hv
        cases hN0 : nestedOf (some s) annR k0 with
        | some q =>
            obtain ⟨s0, a0, b0, c0⟩ := q
            rw [hN0] at hok
            rcases ebind_ok.mp hok with ⟨w0, hw0, hok2⟩
            rcases emap_ok.mp hok2 with ⟨bfr, hbfr, hbf⟩
            rcases buildFields_lookup_nested rest s annR strict typ bfr k v
              s' a' b' c' hbfr hv hN with ⟨w, hcw, hlw⟩
            refine ⟨w, hcw, ?_⟩
            rw [← hbf, PFields.lookup, if_neg hk]
            exact hlw
        | none =>
            rw [hN0] at hok
            rcases ebind_ok.mp hok with ⟨w0, hw0, hok2⟩
            rcases emap_ok.mp hok2 with ⟨bfr, hbfr, hbf⟩
            rcases buildFields_lookup_nested rest s annR strict typ bfr k v
              s' a' b' c' hbfr hv hN with ⟨w, hcw, hlw⟩
            refine ⟨w, hcw, ?_⟩
            rw [← hbf, PFields.lookup, if_neg hk]
            exact hlw

/-! Claim C1. -/

/-- C1 (counterexample to the claim as stated): under `checkTypes` only, a
schema whose default value violates its own declared type (`{a: int,
b: str = 5}`) with input `{}` has a declared, non-defaulted field `a` absent
from the input, yet construction raises the schema-authoring `TypeError`
from the defaults pass — not a `MissingField` `KeyError` naming `a`. -/
theorem claim_C1_counterexample :
    ("a" ∈ exSchemaBadDefault.requiredFin ∧ "a" ∉ keysFin .fnil) ∧
    construct (some exSchemaBadDefault) false false true (.pdict .fnil) =
      .error (.schemaDecl "b") ∧
    Err.isKeyError (.schemaDecl "b") = false :=
  ⟨⟨by decide, by decide⟩, by decide, rfl⟩

/-- C1 (amended): for every mapping input and schema where some declared
field without a default is absent from the input's key set, construction
with any of the three flags raised — `requireDeclared` alone, or
`strictKeys` / `checkTypes`, which each force the resolved `annotations`
on — raises a `KeyError` naming exactly the unmet fields, provided that
under `checkTypes` every declared default satisfies its own type (otherwise
the defaults pass raises `SchemaDeclarationError` first, as the
counterexample shows). -/
theorem claim_C1_missing_field (s : Schema) (ann strict typ : Bool) (m : PFields)
    (hflag : (ann || typ || strict) = true)
    (hdef : typ = true → s.wellTypedDefaults = true)
    (hmiss : ∃ k, k ∈ s.requiredFin ∧ k ∉ keysFin m) :
    construct (some s) ann strict typ (.pdict m) =
      .error (.missingField (s.requiredFin \ keysFin m)) ∧
    (s.requiredFin \ keysFin m).Nonempty ∧
    Err.isKeyError (.missingField (s.requiredFin \ keysFin m)) = true := by
  obtain ⟨k, hk, hnk⟩ := hmiss
  have hnsub : ¬ s.requiredFin ⊆ keysFin m := fun hsub => hnk (hsub hk)
  have hchk := dictKeysChecks_missing strict hnsub
  refine ⟨?_, ⟨k, Finset.mem_sdiff.mpr ⟨hk, hnk⟩⟩, rfl⟩
  simp only [construct, hflag, if_pos rfl]
  cases htyp : typ with
  | false =>
      simp [htyp, hchk, Bind.bind, Except.bind]
  | true =>
      have hcd := checkDefaults_ok_of_wellTyped s (hdef htyp)
      simp [htyp, hcd, hchk, Bind.bind, Except.bind]

/-- C1 (witness): the specification's missing-field scenario — schema
`{a: str, d: int}`, `requireDeclared` on, input `{'a': 'x'}` — raises the
`KeyError` naming exactly `{d}`. -/
theorem claim_C1_witness :
    construct (some exSchemaAD) true false false (.pdict exInputA) =
      .error (.missingField (exSchemaAD.requiredFin \ keysFin exInputA)) ∧
    (exSchemaAD.requiredFin \ keysFin exInputA).Nonempty ∧
    Err.isKeyError (.missingField (exSchemaAD.requiredFin \ keysFin exInputA)) = true :=
  claim_C1_missing_field exSchemaAD true false false exInputA rfl
    (by decide) ⟨"d", by decide, by decide⟩

/-! Claim C2. -/

theorem strict_unexpected_aux (s : Schema) (ann typ : Bool) (m : PFields)
    (hdef : typ = true → s.wellTypedDefaults = true)
    (hreq : s.requiredFin ⊆ keysFin m)
    (hnsub : ¬ keysFin m ⊆ s.keysFin) :
    construct (some s) ann true typ (.pdict m) =
      .error (.unexpectedField (keysFin m \ s.keysFin)) := by
  have hchk := dictKeysChecks_strict hreq hnsub
  simp only [construct, Bool.or_true]
  cases htyp : typ with
  | false => simp [htyp, hchk, Bind.bind, Except.bind]
  | true =>
      have hcd := checkDefaults_ok_of_wellTyped s (hdef htyp)
      simp [htyp, hcd, hchk, Bind.bind, Except.bind]

theorem no_unexpected_aux (s : Schema) (ann typ : Bool) (m : PFields)
    (hnw : s.noWrapperTypes = true) (hsub : keysFin m ⊆ s.keysFin)
    (S : Finset String) :
    construct (some s) ann true typ (.pdict m) ≠ .error (.unexpectedField S) := by
  intro hok
  simp only [construct, Bool.or_true] at hok
  rw [buildFields_noWrapper_ok m true true typ hnw] at hok
  by_cases hreq : s.requiredFin ⊆ keysFin m
  · have hky := dictKeysChecks_ok true hreq hsub
    cases htyp : typ with
    | false => simp [htyp, hky, Bind.bind, Except.bind, Except.map] at hok
    | true =>
        rcases checkDefaults_shape s with hcd | ⟨k0, hcd⟩
        · rcases checkItems_shape s m with hci | ⟨k1, hci⟩ | ⟨k1, hci⟩ <;>
            simp [htyp, hcd, hky, hci, Bind.bind, Except.bind, Except.map] at hok
        · simp [htyp, hcd, Bind.bind, Except.bind, Except.map] at hok
  · have hky := dictKeysChecks_missing true hreq
    cases htyp : typ with
    | false => simp [htyp, hky, Bind.bind, Except.bind, Except.map] at hok
    | true =>
        rcases checkDefaults_shape s with hcd | ⟨k0, hcd⟩
        · simp [htyp, hcd, hky, Bind.bind, Except.bind, Except.map] at hok
        · simp [htyp, hcd, Bind.bind, Except.bind, Except.map] at hok

/-- C2 (counterexample to the claim as stated): (i) with schema
`{a: str, d: int}` under `strictKeys` and input `{'c': 2}` the input's key
set is not a subset of the declared fields, yet the raised error is the
required-field `KeyError` naming `{a, d}` — not an `UnexpectedField` naming
`c`, because the required-field check runs first; (ii) with a field whose
declared type is a nested strict wrapper class, input keys that are a
subset of the declared fields still end in an `UnexpectedField` error,
raised by the nested construction. -/
theorem claim_C2_counterexample :
    (("c" ∈ keysFin exInputC ∧ "c" ∉ exSchemaAD.keysFin) ∧
      construct (some exSchemaAD) false true false (.pdict exInputC) =
        .error (.missingField {"a", "d"})) ∧
    (keysFin exInputNestExtra ⊆ exSchemaNestStrict.keysFin ∧
      construct (some exSchemaNestStrict) false true false (.pdict exInputNestExtra) =
        .error (.unexpectedField {"e"})) :=
  ⟨⟨⟨by decide, by decide⟩, by decide⟩, ⟨by decide, by decide⟩⟩

/-- C2 (amended): under `strictKeys`, provided every non-defaulted declared
field is present in the input (otherwise `MissingField` preempts) and,
when `checkTypes` is also on, every default satisfies its own type, an
input whose key set is not a subset of the declared fields raises
`UnexpectedField` (`KeyError`) naming exactly the extra keys; and when the
input's key set is a subset of the declared fields, no `UnexpectedField`
is ever raised as long as no declared type is a nested wrapper class
(a nested construction may still raise its own, as the counterexample
shows). -/
theorem claim_C2_strict (s : Schema) (ann typ : Bool) (m : PFields) :
    ((typ = true → s.wellTypedDefaults = true) →
      s.requiredFin ⊆ keysFin m → (∃ k, k ∈ keysFin m ∧ k ∉ s.keysFin) →
      construct (some s) ann true typ (.pdict m) =
        .error (.unexpectedField (keysFin m \ s.keysFin)) ∧
      (keysFin m \ s.keysFin).Nonempty ∧
      Err.isKeyError (.unexpectedField (keysFin m \ s.keysFin)) = true) ∧
    (s.noWrapperTypes = true → keysFin m ⊆ s.keysFin →
      ∀ S : Finset String,
        construct (some s) ann true typ (.pdict m) ≠ .error (.unexpectedField S)) := by
  constructor
  · rintro hdef hreq ⟨k, hk, hnk⟩
    have hnsub : ¬ keysFin m ⊆ s.keysFin := fun h => hnk (h hk)
    exact ⟨strict_unexpected_aux s ann typ m hdef hreq hnsub,
      ⟨k, Finset.mem_sdiff.mpr ⟨hk, hnk⟩⟩, rfl⟩
  · intro hnw hsub S
    exact no_unexpected_aux s ann typ m hnw hsub S

/-- C2 (witness): the specification's strict-extra-field scenario — schema
`{a: str, b: int}`, `strictKeys` on, input `{'a': 'x', 'b': 1, 'c': 2}` —
raises the `KeyError` naming exactly `{c}`. -/
theorem claim_C2_witness :
    construct (some exSchemaAB) false true false (.pdict exInputABC) =
      .error (.unexpectedField (keysFin exInputABC \ exSchemaAB.keysFin)) ∧
    (keysFin exInputABC \ exSchemaAB.keysFin).Nonempty ∧
    Err.isKeyError (.unexpectedField (keysFin exInputABC \ exSchemaAB.keysFin)) = true :=
  (claim_C2_strict exSchemaAB false false exInputABC).1 (by decide) (by decide)
    ⟨"c", by decide, by decide⟩

/-! Claim C3. -/

/-- C3: round trip — for every mapping `M` of raw parser output that
already exactly satisfies its schema (no absent fields needing default
injection, `exactFit`), collecting the iteration output of the successfully
constructed object into a plain mapping, recursively converting nested
wrapped objects the same way (`toDictTop`), yields a value `==`-equal to
`M`. -/
theorem claim_C3_round_trip (s? : Option Schema) (ann strict typ : Bool)
    (m : PFields) (w : PVal)
    (hraw : rawOk (.pdict m) = true)
    (hfit : exactFit s? ann strict typ (.pdict m) = true)
    (hok : construct s? ann strict typ (.pdict m) = .ok w) :
    pyEq (toDictTop w) (.pdict m) = true :=
  wraps_pyEq_toDict w (.pdict m)
    (construct_wraps (.pdict m) s? ann strict typ w hraw hfit hok) hraw

/-- C3 (witness): schema `{a: str, b: int}` under `requireDeclared`, input
`{'a': 'x', 'b': 1, 'k3': {'k4': 4}}` — the constructed object wraps the
nested dict, and `dict(...)` of it compares `==`-equal to the input. -/
theorem claim_C3_witness :
    rawOk (.pdict exInputRound) = true ∧
    exactFit (some exSchemaAB) true false false (.pdict exInputRound) = true ∧
    construct (some exSchemaAB) true false false (.pdict exInputRound) =
      .ok (.pwrap (.fcons "a" (.pstr "x") (.fcons "b" (.pint 1)
        (.fcons "k3" (.pwrap (.fcons "k4" (.pint 4) .fnil)) .fnil)))) ∧
    pyEq (toDictTop (.pwrap (.fcons "a" (.pstr "x") (.fcons "b" (.pint 1)
        (.fcons "k3" (.pwrap (.fcons "k4" (.pint 4) .fnil)) .fnil)))))
      (.pdict exInputRound) = true :=
  ⟨by decide, by decide, by decide,
    claim_C3_round_trip (some exSchemaAB) true false false exInputRound _
      (by decide) (by decide) (by decide)⟩

/-! Claim C4. -/

/-- C4 (counterexample to the claim as stated): with all three checking
flags off, schema `{a: str, b: int = 1}` and input `{'a': 'x'}`, the
constructed object's field mapping does not contain `b` at all — the
defaults are only collected inside the flag-gated checking block — even
though `b` is a declared defaulted field absent from the input. -/
theorem claim_C4_counterexample :
    construct (some exSchemaDefault) false false false (.pdict exInputA) =
      .ok (.pwrap (.fcons "a" (.pstr "x") .fnil)) ∧
    (PFields.fcons "a" (.pstr "x") .fnil).lookup "b" = none ∧
    exSchemaDefault.lookupDefault "b" = some (.pint 1) ∧
    "b" ∉ keysFin exInputA :=
  ⟨by decide, by decide, by decide, by decide⟩

/-- C4 (amended): for every declared field with a default that is absent
from the input mapping, under every configuration with at least one
checking flag raised, a successful construction binds that field to the
default value in the field mapping.  With all three flags off the field
mapping omits the field (the class-level default remains reachable only
through attribute lookup), as the counterexample shows. -/
theorem claim_C4_default_applied (s : Schema) (ann strict typ : Bool)
    (m : PFields) (k : String) (d : PVal) (flds : PFields)
    (hflag : (ann || typ || strict) = true)
    (hd : s.lookupDefault k = some d)
    (habs : k ∉ keysFin m)
    (hok : construct (some s) ann strict typ (.pdict m) = .ok (.pwrap flds)) :
    flds.lookup k = some d := by
  simp only [construct, hflag, if_pos rfl] at hok
  rcases ebind_ok.mp hok with ⟨u1, h1, hok2⟩
  rcases ebind_ok.mp hok2 with ⟨u2, h2, hok3⟩
  rcases emap_ok.mp hok3 with ⟨bf, hbf, hw⟩
  rw [← PVal.pwrap.inj hw]
  exact lookup_append_left bf (absentDefaults_lookup_some s hd habs)

/-- C4 (witness): the specification's default-applied scenario — schema
`{a: str, b: int = 1}`, `checkTypes` on, input `{'a': 'x'}` — the
constructed object's field mapping binds `b` to `1`. -/
theorem claim_C4_witness :
    construct (some exSchemaDefault) false false true (.pdict exInputA) =
      .ok (.pwrap (.fcons "b" (.pint 1) (.fcons "a" (.pstr "x") .fnil))) ∧
    (PFields.fcons "b" (.pint 1) (.fcons "a" (.pstr "x") .fnil)).lookup "b" =
      some (.pint 1) :=
  ⟨by decide, claim_C4_default_applied exSchemaDefault false false true exInputA
    "b" (.pint 1) _ rfl (by decide) (by decide) (by decide)⟩

/-! Claim C5. -/

/-- C5 (counterexample to the claim as stated): (i) schema `{c: [int]}`
(bare list literal) under `checkTypes` with input `{}` raises the
required-field `KeyError`, not a `TypeError` — the bare-literal check is
inside the per-input-item loop and is never reached for an absent key, so
the failure is not "regardless of the input's contents"; (ii) the plain
`list` class as a declared type is not rejected at all: construction
succeeds, because `isinstance(t, list)` is false for the class `list`
itself. -/
theorem claim_C5_counterexample :
    (construct (some exSchemaBare) false false true (.pdict .fnil) =
        .error (.missingField {"c"}) ∧
      Err.isTypeError (.missingField {"c"}) = false) ∧
    construct (some exSchemaListClass) false false true (.pdict exInputCList) =
      .ok (.pwrap (.fcons "c" (.plist .lnil) .fnil)) :=
  ⟨⟨by decide, rfl⟩, by decide⟩

/-- C5 (amended): under `checkTypes`, if a declared field's type is a bare
list literal and the field's key is present in the input mapping,
construction never succeeds — some error is raised (the bare-literal
`SchemaDeclarationError` when no earlier check fails first).  A key absent
from the input does not trigger the bare-literal check, and the plain
`list` class is a valid annotation, as the counterexample shows. -/
theorem claim_C5_bare_list (s : Schema) (ann strict : Bool) (m : PFields)
    (k : String)
    (ht : s.lookupType k = some .tBareList)
    (hk : k ∈ m.keys) :
    ∃ e, construct (some s) ann strict true (.pdict m) = .error e := by
  rcases checkItems_err_of_bare s m hk ht with ⟨e0, hci⟩
  cases hchk : dictKeysChecks s strict m with
  | ok u =>
      cases u
      rcases checkDefaults_shape s with hcd | ⟨k0, hcd⟩
      · exact ⟨e0, by
          simp [construct, Bool.true_or, Bool.or_true, hcd, hchk, hci,
            Bind.bind, Except.bind, Except.map]⟩
      · exact ⟨.schemaDecl k0, by
          simp [construct, Bool.true_or, Bool.or_true, hcd,
            Bind.bind, Except.bind, Except.map]⟩
  | error e1 =>
      rcases checkDefaults_shape s with hcd | ⟨k0, hcd⟩
      · exact ⟨e1, by
          simp [construct, Bool.true_or, Bool.or_true, hcd, hchk,
            Bind.bind, Except.bind, Except.map]⟩
      · exact ⟨.schemaDecl k0, by
          simp [construct, Bool.true_or, Bool.or_true, hcd,
            Bind.bind, Except.bind, Except.map]⟩

/-- C5 (witness): schema `{c: [int]}` under `checkTypes` with input
`{'c': []}` — the field is present, construction fails, and the raised
error is the bare-literal `SchemaDeclarationError` naming `c`. -/
theorem claim_C5_witness :
    exSchemaBare.lookupType "c" = some .tBareList ∧
    "c" ∈ PFields.keys exInputCList ∧
    (∃ e, construct (some exSchemaBare) false false true (.pdict exInputCList) =
      .error e) ∧
    construct (some exSchemaBare) false false true (.pdict exInputCList) =
      .error (.schemaDecl "c") :=
  ⟨by decide, by decide,
    claim_C5_bare_list exSchemaBare false false exInputCList "c"
      (by decide) (by decide),
    by decide⟩

/-! Claim C6. -/

theorem lookup_mem_keys : ∀ (m : PFields) {k : String} {v : PVal},
    m.lookup k = some v → k ∈ m.keys
  | .fnil, _, _, h => by rw [PFields.lookup] at h; exact absurd h (by simp)
  | .fcons k0 v0 rest, k, v, h => by
      rw [PFields.lookup] at h
      rw [PFields.keys]
      by_cases hk : k0 = k
      · rw [hk]
        exact List.mem_cons_self k rest.keys
      · rw [if_neg hk] at h
        exact List.mem_cons_of_mem _ (lookup_mem_keys rest h)

/-- C6: with checking active, a key naming a declared field whose declared
type is a schema-bound wrapper class is constructed by invoking that nested
class's own construction under its *own* bound flags `(a', b', c')` — the
caller's flags `(ann, strict, typ)` do not appear in the nested call — and
the stored field value is exactly that nested result. -/
theorem claim_C6_nested_config (s : Schema) (ann strict typ : Bool)
    (m : PFields) (k : String) (v : PVal) (s' : Schema) (a' b' c' : Bool)
    (flds : PFields)
    (hflag : (ann || typ || strict) = true)
    (ht : s.lookupType k = some (.tWrapper s' a' b' c'))
    (hv : m.lookup k = some v)
    (hok : construct (some s) ann strict typ (.pdict m) = .ok (.pwrap flds)) :
    ∃ w, construct (some s') a' b' c' v = .ok w ∧ flds.lookup k = some w := by
  simp only [construct, hflag, if_pos rfl] at hok
  rcases ebind_ok.mp hok with ⟨u1, h1, hok2⟩
  rcases ebind_ok.mp hok2 with ⟨u2, h2, hok3⟩
  rcases emap_ok.mp hok3 with ⟨bf, hbf, hw⟩
  have hN : nestedOf (some s) true k = some (s', a', b', c') := by
    simp [nestedOf, Option.bind, ht]
  rcases buildFields_lookup_nested m s true strict typ bf k v s' a' b' c'
    hbf hv hN with ⟨w, hcw, hlw⟩
  refine ⟨w, hcw, ?_⟩
  rw [← PVal.pwrap.inj hw]
  have hkm : k ∈ keysFin m := mem_keysFin.mpr (lookup_mem_keys m hv)
  have hres : (PFields.append (absentDefaults s m) bf).lookup k = some w := by
    rw [lookup_append_right bf (absentDefaults_lookup_none s hkm)]
    exact hlw
  exact hres

/-- C6 (witness): caller schema `{c: InnerBar}` under `requireDeclared`,
where the nested class `InnerBar = {bar_key: str}` is bound to all-flags-off;
input `{'c': {}}`.  The nested value is built by the nested class's own
construction, which — under its own configuration, not the caller's —
accepts the empty dict even though `bar_key` is declared there. -/
theorem claim_C6_witness :
    exSchemaNestOff.lookupType "c" =
      some (.tWrapper exSchemaInnerBar false false false) ∧
    construct (some exSchemaNestOff) true false false (.pdict exInputNestEmpty) =
      .ok (.pwrap (.fcons "c" (.pwrap .fnil) .fnil)) ∧
    ∃ w, construct (some exSchemaInnerBar) false false false (.pdict .fnil) =
        .ok w ∧
      (PFields.fcons "c" (.pwrap .fnil) .fnil).lookup "c" = some w :=
  ⟨by decide, by decide,
    claim_C6_nested_config exSchemaNestOff true false false exInputNestEmpty
      "c" (.pdict .fnil) exSchemaInnerBar false false false
      (.fcons "c" (.pwrap .fnil) .fnil) rfl (by decide) (by decide) (by decide)⟩

/-! Claim C7. -/

/-- C7 (counterexample to the claim as stated): comparing a constructed
object with `__dict__` `{'a': 1}` against the integer `1` or against `None`
returns `False` — it does not raise: `dict.__eq__` answers `NotImplemented`
for such shapes and the interpreter falls back to `False`, so the
`try`/`except` re-raise in `__eq__` is never reached. -/
theorem claim_C7_counterexample :
    wrapperEq exFieldsA1 (.pint 1) = .ok false ∧
    wrapperEq exFieldsA1 .pnone = .ok false :=
  ⟨rfl, rfl⟩

/-- C7 (amended): equality of a constructed object returns true exactly
when the other operand is a plain mapping equal (as a mapping) to the field
mapping, or another wrapped object whose field mapping is equal; for every
operand with neither mapping structure nor a `__dict__` — integers, `None`,
strings, lists, and so on — the comparison returns `False` instead of
raising; no comparison ever raises. -/
theorem claim_C7_wrapper_eq (flds : PFields) :
    (∀ d, wrapperEq flds (.pdict d) = .ok (fieldsEqB flds d)) ∧
    (∀ g, wrapperEq flds (.pwrap g) = .ok (fieldsEqB flds g)) ∧
    (∀ other, hasAttrItems other = false → (∀ g, other ≠ .pwrap g) →
      wrapperEq flds other = .ok false) ∧
    (∀ other, ∃ b, wrapperEq flds other = .ok b) := by
  refine ⟨fun d => rfl, fun g => rfl, ?_, ?_⟩
  · intro other h1 h2
    cases other with
    | pdict d => simp [hasAttrItems] at h1
    | pwrap g => exact absurd rfl (h2 g)
    | plist xs => rfl
    | ptuple xs => rfl
    | pset xs => rfl
    | pgen xs => rfl
    | pstr t => rfl
    | pint n => rfl
    | pbool b => rfl
    | pnone => rfl
  · intro other
    cases other <;> exact ⟨_, rfl⟩

/-- C7 (witness): comparisons of `{'a': 1}` with a string return `.ok
false` (no error), and with an equal plain dict return true. -/
theorem claim_C7_witness :
    wrapperEq exFieldsA1 (.pstr "zz") = .ok false ∧
    wrapperEq exFieldsA1 (.pdict exFieldsA1) = .ok (fieldsEqB exFieldsA1 exFieldsA1) ∧
    fieldsEqB exFieldsA1 exFieldsA1 = true :=
  ⟨(claim_C7_wrapper_eq exFieldsA1).2.2.1 (.pstr "zz") rfl
      (fun g h => PVal.noConfusion h),
   (claim_C7_wrapper_eq exFieldsA1).1 exFieldsA1,
   by decide⟩

/-! Claim C8. -/

theorem wrap0F_keys : ∀ (m : PFields), (wrap0F m).keys = m.keys
  | .fnil => rfl
  | .fcons k v rest => by
      rw [wrap0F, PFields.keys, PFields.keys, wrap0F_keys rest]

theorem wrap0F_lookup : ∀ (m : PFields) {k : String} {v : PVal},
    m.lookup k = some v → (wrap0F m).lookup k = some (wrap0 v)
  | .fnil, _, _, h => by rw [PFields.lookup] at h; exact absurd h (by simp)
  | .fcons k0 v0 rest, k, v, h => by
      rw [PFields.lookup] at h
      rw [wrap0F, PFields.lookup]
      by_cases hk : k0 = k
      · rw [if_pos hk] at h ⊢
        rw [Option.some.inj h]
      · rw [if_neg hk] at h ⊢
        exact wrap0F_lookup rest h

/-- C8: wrapping a mapping with no schema and no checking succeeds, the
constructed object's field set is exactly the input's key set (same names,
same order), and the value stored under each key `k` is exactly the result
of the generic recursive wrap of `M[k]` (construction with no target
type). -/
theorem claim_C8_generic_wrap (m : PFields) :
    construct none false false false (.pdict m) = .ok (.pwrap (wrap0F m)) ∧
    (wrap0F m).keys = m.keys ∧
    ∀ k v, m.lookup k = some v →
      ∃ w, construct none false false false v = .ok w ∧
        (wrap0F m).lookup k = some w := by
  refine ⟨construct_none_ok _ false false false, wrap0F_keys m, ?_⟩
  intro k v hv
  exact ⟨wrap0 v, construct_none_ok v false false false, wrap0F_lookup m hv⟩

/-- C8 (witness): `{'foo': 'bar', 'key3': {'key4': 4}}` wrapped bare — the
field set matches and `key3` holds the generic wrap of the nested dict. -/
theorem claim_C8_witness :
    construct none false false false (.pdict exInputFoo) =
      .ok (.pwrap (wrap0F exInputFoo)) ∧
    (wrap0F exInputFoo).keys = exInputFoo.keys ∧
    ∃ w, construct none false false false (.pdict (.fcons "key4" (.pint 4) .fnil)) =
        .ok w ∧ (wrap0F exInputFoo).lookup "key3" = some w :=
  ⟨(claim_C8_generic_wrap exInputFoo).1, (claim_C8_generic_wrap exInputFoo).2.1,
   (claim_C8_generic_wrap exInputFoo).2.2 "key3" _ (by decide)⟩

/-! Claim C9. -/

/-- C9 (counterexample to the claim as stated): with schema `{b: int = 1}`
and all checking flags off, the constructed object for input `{}` has an
empty field mapping, yet item access for `b` returns the class-level
default `1` instead of raising `KeyError` — `hasattr`/`getattr` fall back
to class attributes. -/
theorem claim_C9_counterexample :
    construct (some exSchemaB1) false false false (.pdict .fnil) =
      .ok (.pwrap .fnil) ∧
    PFields.lookup .fnil "b" = none ∧
    getitem (some exSchemaB1) .fnil "b" = .ok (.pint 1) :=
  ⟨by decide, rfl, rfl⟩

/-- C9 (amended): item access returns the field's value whenever the name
is in the field mapping; for a name absent from the field mapping *and*
from the class's default attributes it raises the same error kind
(`KeyError`) as construction-time absence; a name absent from the field
mapping but carried as a class default returns that default instead, as
the counterexample shows. -/
theorem claim_C9_getitem (s? : Option Schema) (flds : PFields) (item : String) :
    (∀ v, flds.lookup item = some v → getitem s? flds item = .ok v) ∧
    (flds.lookup item = none →
      s?.bind (fun s => s.lookupDefault item) = none →
      getitem s? flds item = .error (.missingAttr item) ∧
      Err.isKeyError (.missingAttr item) = true) := by
  constructor
  · intro v hv
    simp [getitem, hv]
  · intro h1 h2
    refine ⟨?_, rfl⟩
    simp [getitem, h1, h2]

/-- C9 (witness): on `__dict__` `{'a': 1}` with no schema, access to `a`
returns `1` and access to `zz` raises the `KeyError`. -/
theorem claim_C9_witness :
    getitem none exFieldsA1 "a" = .ok (.pint 1) ∧
    getitem none exFieldsA1 "zz" = .error (.missingAttr "zz") ∧
    Err.isKeyError (.missingAttr "zz") = true :=
  ⟨(claim_C9_getitem none exFieldsA1 "a").1 (.pint 1) (by decide),
   ((claim_C9_getitem none exFieldsA1 "zz").2 (by decide) rfl).1,
   ((claim_C9_getitem none exFieldsA1 "zz").2 (by decide) rfl).2⟩

/-! Claim C10. -/

/-- C10 (counterexample to the claim as stated): a set exposes both
`__iter__` and `clear`, so — contrary to the claim's enumeration — it does
*not* fall through to the scalar base case: wrapping `{1}` takes the
sequence branch and returns a plain list, not the set unchanged. -/
theorem claim_C10_counterexample :
    hasAttrIter exInputSet = true ∧ hasAttrClear exInputSet = true ∧
    construct none false false false exInputSet =
      .ok (.plist (.lcons (.pint 1) .lnil)) ∧
    PVal.plist (.lcons (.pint 1) .lnil) ≠ exInputSet :=
  ⟨rfl, rfl, rfl, by decide⟩

/-- C10 (amended): a value takes the sequence branch only if it exposes
both list-style iteration and a list-style `clear` attribute — which lists
*and sets* do, so a set comes back as an ordered list of generically
wrapped elements; tuples, generators and text strings (and scalars and
wrapper instances) lack `clear` or `items` and are returned unchanged by
the scalar base case. -/
theorem claim_C10_dispatch (s? : Option Schema) (ann strict typ : Bool) :
    (∀ v, hasAttrItems v = false → (hasAttrIter v && hasAttrClear v) = false →
      construct s? ann strict typ v = .ok v) ∧
    (∀ xs, construct s? ann strict typ (.pset xs) = .ok (.plist (wrap0L xs))) ∧
    (∀ xs, construct s? ann strict typ (.ptuple xs) = .ok (.ptuple xs)) ∧
    (∀ xs, construct s? ann strict typ (.pgen xs) = .ok (.pgen xs)) ∧
    (∀ t, construct s? ann strict typ (.pstr t) = .ok (.pstr t)) := by
  refine ⟨?_, ?_, fun xs => rfl, fun xs => rfl, fun t => rfl⟩
  · intro v h1 h2
    cases v with
    | pdict m => simp [hasAttrItems] at h1
    | plist xs => simp [hasAttrIter, hasAttrClear] at h2
    | pset xs => simp [hasAttrIter, hasAttrClear] at h2
    | pwrap f => rfl
    | ptuple xs => rfl
    | pgen xs => rfl
    | pstr t => rfl
    | pint n => rfl
    | pbool b => rfl
    | pnone => rfl
  · intro xs
    simp only [construct]
    rw [wrapAll_none_ok]
    rfl

/-- C10 (witness): a string is returned unchanged (it lacks `clear`), and
the set `{1}` takes the sequence branch. -/
theorem claim_C10_witness :
    hasAttrItems (.pstr "ab") = false ∧
    (hasAttrIter (.pstr "ab") && hasAttrClear (.pstr "ab")) = false ∧
    construct none false false false (.pstr "ab") = .ok (.pstr "ab") ∧
    construct none false false false (.pset (.lcons (.pint 1) .lnil)) =
      .ok (.plist (wrap0L (.lcons (.pint 1) .lnil))) :=
  ⟨rfl, rfl,
   (claim_C10_dispatch none false false false).1 (.pstr "ab") rfl rfl,
   (claim_C10_dispatch none false false false).2.1 (.lcons (.pint 1) .lnil)⟩
